import Mathlib

/-!
Shallow embedding of the two core stages of the image-based radial
positioning pipeline: `scripts/step05_interpolation.py` (gap interpolation)
and `scripts/step06_orientation_propagation.py` (orientation propagation).

Modelling conventions: floating-point values are exact rationals; JSON
records are structures with optional fields for keys that may be absent or
null; Python exceptions are `Except String`; the external angular projector
`angle_to_xy` and the external scipy fitting routines (`curve_fit`,
`UnivariateSpline`, the variable-window `savgol_filter` of step06) are
function parameters, while the fixed window-3 order-2 `savgol_filter` of
step05 is embedded exactly.  Items are tracked by their position in the
step's item list, standing in for Python object identity.
-/

/-- Python float modulo in exact arithmetic: `a % b = a - b * floor (a / b)`. -/
def pymod (a b : ℚ) : ℚ := a - b * ⌊a / b⌋

/-- Mean of a list of rationals (`np.mean`). -/
def qmean (l : List ℚ) : ℚ := l.sum / l.length

/-- One image record: the fields of the JSON items that the two stages read
or write.  Optional fields model keys that may be absent or null; the
timestamp is the parse result used only as a sort key. -/
structure Item where
  imageNumber : Int
  timestamp : Option Nat
  sequence : Option String
  calibrationStatus : Option String
  angularPosition : Option ℚ
  omega : ℚ
  phi : ℚ
  kappa : ℚ
  posX : Option ℚ
  posY : Option ℚ
  posZ : Option ℚ
deriving DecidableEq

/-- One processing step of the dataset: optional geometric context plus the
ordered item collection. -/
structure StepInfo where
  axisCenter : Option (ℚ × ℚ)
  calculatedRadius : Option ℚ
  calculatedZ : Option ℚ
  items : List Item
deriving DecidableEq

/-- Order on optional parsed timestamps: a missing timestamp sorts after
every present one (the `datetime.max` stand-in of step05 line 37). -/
def tsLeB : Option Nat → Option Nat → Bool
  | _, none => true
  | none, some _ => false
  | some a, some b => a ≤ b

/-- Sort comparison of step05 line 37: by `ImageNumber`, then parsed
timestamp. -/
def itemLeB (a b : Item) : Bool :=
  a.imageNumber < b.imageNumber ||
    (a.imageNumber == b.imageNumber && tsLeB a.timestamp b.timestamp)

/-- Stable sort of a step's items (Python `list.sort` with the key above;
insertion sort computes the same unique stable result). -/
def sortItems (l : List Item) : List Item :=
  List.insertionSort (fun a b => itemLeB a b = true) l

/-- Anchor test of step05 line 46: status `original` or
`visually calibrated`. -/
def isAnchor (it : Item) : Bool :=
  it.calibrationStatus == some "original" ||
    it.calibrationStatus == some "visually calibrated"

/-- Uncalibrated test of step05 line 51. -/
def isUncalibrated (it : Item) : Bool :=
  it.calibrationStatus == some "uncalibrated"

/-- A closed segment: previous anchor, closing anchor and the accumulated
run, each paired with its position in the sorted item list. -/
abbrev Seg := (Nat × Item) × (Nat × Item) × List (Nat × Item)

/-- Position-annotated items. -/
def enumItems (k : Nat) : List Item → List (Nat × Item)
  | [] => []
  | a :: l => (k, a) :: enumItems (k + 1) l

/-- Forward scan of step05 lines 40-52. On an anchor, close the segment when
a previous anchor exists and the run is non-empty (the run survives a first
anchor met with no previous anchor); on `uncalibrated`, append to the run
unconditionally; other statuses are ignored.  A trailing run is dropped. -/
def scanSegments :
    Option (Nat × Item) → List (Nat × Item) → List (Nat × Item) → List Seg
  | _, _, [] => []
  | prev, cur, p :: rest =>
    if isAnchor p.2 then
      match prev, cur with
      | some q, c :: cs => (q, p, c :: cs) :: scanSegments (some p) [] rest
      | some _, [] => scanSegments (some p) [] rest
      | none, c :: cs => scanSegments (some p) (c :: cs) rest
      | none, [] => scanSegments (some p) [] rest
    else if isUncalibrated p.2 then
      scanSegments prev (cur ++ [p]) rest
    else
      scanSegments prev cur rest

/-- Exact-arithmetic `np.linspace a b m`: `m` evenly spaced points from `a`
to `b`. -/
def linspace (a b : ℚ) (m : ℕ) : List ℚ :=
  (List.range m).map (fun i : ℕ => a + (b - a) * (i : ℚ) / ((m : ℚ) - 1))

/-- The `n` interior points `np.linspace(th0, th1, n + 2)[1:-1]` of step05
line 68 (`num_steps = n + 1`, so `num_steps + 1 = n + 2` points). -/
def interiorPoints (th0 th1 : ℚ) (n : ℕ) : List ℚ :=
  ((linspace th0 th1 (n + 2)).drop 1).dropLast

/-- Python `abs` on exact rationals. -/
def qabs (x : ℚ) : ℚ := if x < 0 then -x else x

/-- Raw per-segment angle values of step05 lines 64-68: a constant run below
a spread of 1, interior points of the uniform partition otherwise. -/
def segmentThetasPre (th0 th1 : ℚ) (n : ℕ) : List ℚ :=
  if qabs (th0 - th1) < 1 then List.replicate n th0 else interiorPoints th0 th1 n

/-- Value at abscissa `t` of the quadratic through `(0, y0)`, `(1, y1)`,
`(2, y2)` (Lagrange form). -/
def quadAt (y0 y1 y2 t : ℚ) : ℚ :=
  y0 * ((t - 1) * (t - 2)) / 2 - y1 * (t * (t - 2)) + y2 * (t * (t - 1)) / 2

/-- Interior and right-edge outputs of the window-3 order-2 filter: the local
quadratic evaluated at the window centre, and at positions 1 and 2 of the
last window for the final two values. -/
def savgolTail : ℚ → ℚ → List ℚ → List ℚ
  | a, b, [c] => [quadAt a b c 1, quadAt a b c 2]
  | a, b, c :: rest => quadAt a b c 1 :: savgolTail b c rest
  | _, _, [] => []

/-- Exact-arithmetic `scipy.signal.savgol_filter(ys, 3, 2)` (default mode
`interp`): each output is the least-squares quadratic over its window of
three values, evaluated at the window position; the left edge uses the first
window at position 0.  A quadratic through three points interpolates them. -/
def savgol32 : List ℚ → List ℚ
  | y0 :: y1 :: y2 :: rest => quadAt y0 y1 y2 0 :: savgolTail y0 y1 (y2 :: rest)
  | l => l

/-- Smoothing guard of step05 lines 71-72: apply the filter when at least
three values are present (there `min(len, 3) = 3`). -/
def smoothThetas (ts : List ℚ) : List ℚ :=
  if 3 ≤ ts.length then savgol32 ts else ts

/-- Field updates of step05 lines 74-82 for one run item resolved at angle
`θ`: `X`/`Y` from the angular projector at `(θ, radius)`, `Z` from the step,
status `estimated`. -/
def estUpdate (proj : ℚ → ℚ → ℚ × ℚ × ℚ) (radius z θ : ℚ) (it : Item) : Item :=
  { it with
    angularPosition := some θ
    posX := some (proj θ radius).1
    posY := some (proj θ radius).2.1
    posZ := some z
    calibrationStatus := some "estimated" }

/-- Updates produced by one closed segment (step05 lines 55-82): skipped when
an endpoint angle is missing or the spread is below `0.01`; otherwise the run
is paired with the smoothed angle values. -/
def segmentUpdates (proj : ℚ → ℚ → ℚ × ℚ × ℚ) (radius z : ℚ) (seg : Seg) :
    List (Nat × Item) :=
  match seg.1.2.angularPosition, seg.2.1.2.angularPosition with
  | some th0, some th1 =>
    if qabs (th0 - th1) < 1 / 100 then []
    else
      let thetas := smoothThetas (segmentThetasPre th0 th1 seg.2.2.length)
      (seg.2.2.zip thetas).map (fun pq => (pq.1.1, estUpdate proj radius z pq.2 pq.1.2))
  | _, _ => []

/-- In-place mutation of the sorted list: position `k + i` takes its updated
record when one was produced, and is unchanged otherwise. -/
def applyUpdates (upds : List (Nat × Item)) : Nat → List Item → List Item
  | _, [] => []
  | k, it :: rest => ((upds.lookup k).getD it) :: applyUpdates upds (k + 1) rest

/-- Gap interpolation for one step whose geometric context is present
(step05 lines 29-82): sort, scan for segments, write back the per-segment
updates. -/
def interpolate_positions_step (proj : ℚ → ℚ → ℚ × ℚ × ℚ) (radius z : ℚ)
    (items : List Item) : List Item :=
  let s := sortItems items
  applyUpdates ((scanSegments none [] (enumItems 0 s)).flatMap
    (segmentUpdates proj radius z)) 0 s

/-- Step05 on one step record: a step missing any context field is skipped
unchanged (lines 20-22).  The axis center is read but unused by the
mathematics (the projector takes angle and radius only). -/
def interpolate_positions_stepInfo (proj : ℚ → ℚ → ℚ × ℚ × ℚ) (st : StepInfo) :
    StepInfo :=
  match st.axisCenter, st.calculatedRadius, st.calculatedZ with
  | some _, some r, some z =>
    { st with items := interpolate_positions_step proj r z st.items }
  | _, _, _ => st

/-- Step05 on the whole dataset (mapping from step name to record). -/
def interpolate_positions (proj : ℚ → ℚ → ℚ × ℚ × ℚ)
    (data : List (String × StepInfo)) : List (String × StepInfo) :=
  data.map (fun p => (p.1, interpolate_positions_stepInfo proj p.2))

/-- Spec-side comparand for the refinement claim: `segmentUpdates` with the
smoothing pass removed. -/
def segmentUpdatesNS (proj : ℚ → ℚ → ℚ × ℚ × ℚ) (radius z : ℚ) (seg : Seg) :
    List (Nat × Item) :=
  match seg.1.2.angularPosition, seg.2.1.2.angularPosition with
  | some th0, some th1 =>
    if qabs (th0 - th1) < 1 / 100 then []
    else
      let thetas := segmentThetasPre th0 th1 seg.2.2.length
      (seg.2.2.zip thetas).map (fun pq => (pq.1.1, estUpdate proj radius z pq.2 pq.1.2))
  | _, _ => []

/-- Spec-side comparand: the interpolator without its smoothing step. -/
def interpolate_positions_step_nosmooth (proj : ℚ → ℚ → ℚ × ℚ × ℚ)
    (radius z : ℚ) (items : List Item) : List Item :=
  let s := sortItems items
  applyUpdates ((scanSegments none [] (enumItems 0 s)).flatMap
    (segmentUpdatesNS proj radius z)) 0 s

/-- Outcome of one external `scipy.optimize.curve_fit` call: a fitted model
returned as an evaluable function, the `RuntimeError` raised on
non-convergence (the only exception the caller catches), or any other
exception it may raise. -/
inductive FitOutcome where
  | ok (f : ℚ → ℚ)
  | runtimeError
  | fatal (msg : String)

/-- External collaborator type: `curve_fit` on the (angle, value) samples. -/
abbrev CurveFit := List ℚ → List ℚ → FitOutcome

/-- External collaborator type: evaluation of a `UnivariateSpline` built
from the samples.  Constructing the spline with `k = 3` requires strictly
more than 3 data points (documented scipy precondition); that check is made
at the call site below. -/
abbrev SplineEval := List ℚ → List ℚ → ℚ → ℚ

/-- step06 lines 7-27 `fit_sinusoidal_trend`: with fewer than 3 samples
return the constant mean; otherwise attempt the sinusoidal fit, falling back
on `RuntimeError` to a cubic smoothing spline — whose constructor itself
raises when given 3 or fewer points, an exception nothing catches.  Any
non-`RuntimeError` exception from `curve_fit` also escapes. -/
def fit_sinusoidal_trend (cf : CurveFit) (sp : SplineEval)
    (angular_positions values : List ℚ) : Except String (ℚ → ℚ) :=
  if angular_positions.length < 3 then .ok (fun _ => qmean values)
  else
    match cf angular_positions values with
    | .ok f => .ok f
    | .fatal msg => .error msg
    | .runtimeError =>
      if angular_positions.length ≤ 3 then
        .error "ValueError: UnivariateSpline with k=3 needs more than 3 points"
      else .ok (sp angular_positions values)

/-- Wrapped step used by `np.unwrap` in the degree domain: no correction for
jumps below the default half-turn discontinuity, otherwise the difference is
brought into `(-180, 180]` with the half-turn tie broken towards `+180` for
positive differences. -/
def unwrapStep (prevAdj prevOrig cur : ℚ) : ℚ :=
  let d := cur - prevOrig
  let m0 := pymod (d + 180) 360 - 180
  let m := if m0 = -180 ∧ 0 < d then 180 else m0
  if qabs d < 180 then prevAdj + d else prevAdj + m

/-- Degree-domain model of step06 lines 70-71:
`np.degrees(np.unwrap(np.radians ks))`; unwrap commutes exactly with the
radian scaling. -/
def unwrapDegAux : ℚ → ℚ → List ℚ → List ℚ
  | _, _, [] => []
  | prevAdj, prevOrig, c :: cs =>
    unwrapStep prevAdj prevOrig c :: unwrapDegAux (unwrapStep prevAdj prevOrig c) c cs

/-- Unwrap a whole kappa sequence (first value unchanged). -/
def unwrapDeg : List ℚ → List ℚ
  | [] => []
  | k :: ks => k :: unwrapDegAux k k ks

/-- Least-squares line `np.polyfit xs ys 1` in closed form (slope,
intercept); the inputs reaching it here have at least two distinct
abscissae, so the normal-equations denominator is nonzero. -/
def polyfit1 (xs ys : List ℚ) : ℚ × ℚ :=
  let n : ℚ := xs.length
  let sx := xs.sum
  let sy := ys.sum
  let sxx := (xs.map (fun x => x * x)).sum
  let sxy := (List.zipWith (fun x y => x * y) xs ys).sum
  let d := n * sxx - sx * sx
  ((n * sxy - sx * sy) / d, (sy * sxx - sx * sxy) / d)

/-- step06 lines 76-78 `kappa_trend`: evaluate the fitted line and wrap the
result back into the canonical band via `(v + 180) % 360 - 180`. -/
def kappa_trend (slope intercept x : ℚ) : ℚ :=
  pymod (slope * x + intercept + 180) 360 - 180

/-- One anchor sample row: angular position, Omega, Phi, Kappa. -/
abbrev Row := ℚ × ℚ × ℚ × ℚ

/-- Sort of step06 lines 48-53: `np.argsort` on the angular positions,
applied to all four arrays.  (`np.argsort` leaves the order of equal angles
unspecified; on the paths evaluated here all angles are distinct.) -/
def sortRows (rows : List Row) : List Row :=
  List.insertionSort (fun a b => a.1 ≤ b.1) rows

/-- Tail of the deduplication: drop rows whose angle equals the last kept
one. -/
def dedupRowsTail : ℚ → List Row → List Row
  | _, [] => []
  | a, r :: rest =>
    if r.1 = a then dedupRowsTail a rest else r :: dedupRowsTail r.1 rest

/-- Deduplication of step06 lines 55-60: on the angle-sorted rows,
`np.unique(..., return_index=True)` keeps the first row of each group of
equal angular positions. -/
def dedupRows : List Row → List Row
  | [] => []
  | r :: rest => r :: dedupRowsTail r.1 rest

/-- External collaborator type: `scipy.signal.savgol_filter` with the
variable window of step06 (window, order, values). -/
abbrev SavgolFilter := Nat → Nat → List ℚ → Except String (List ℚ)

/-- Trend triple returned for one sequence: Omega, Phi and Kappa trends. -/
abbrev Trends := (ℚ → ℚ) × (ℚ → ℚ) × (ℚ → ℚ)

/-- Extraction of the four sample arrays of step06 lines 43-46, as rows; a
missing angular position makes the numpy pipeline raise and is modelled as
an error. -/
def extractRows : List Item → Except String (List Row)
  | [] => .ok []
  | it :: rest =>
    match it.angularPosition with
    | none => .error "TypeError: angular position missing"
    | some a =>
      match extractRows rest with
      | .error e => .error e
      | .ok rs => .ok ((a, it.omega, it.phi, it.kappa) :: rs)

/-- step06 lines 36-83 `compute_sinusoidal_offsets` on the `original` items
of one sequence.  The Python function returns `None` for fewer than 3 items,
which its only caller — already guarded by the same bound — would crash
unpacking; a missing angular position makes the numpy pipeline raise; both
are modelled as errors. -/
def compute_sinusoidal_offsets (cf : CurveFit) (sv : SavgolFilter)
    (sp : SplineEval) (sequence_items : List Item) : Except String Trends :=
  if sequence_items.length < 3 then .error "TypeError: cannot unpack None"
  else
    match extractRows sequence_items with
    | .error e => .error e
    | .ok rows0 =>
      let rows := dedupRows (sortRows rows0)
      let n := rows.length
      let windowSize := if 3 < n then min 11 n else n
      let polyOrder := if 3 < windowSize then 3 else 1
      let angs := rows.map (fun r => r.1)
      match sv windowSize polyOrder (rows.map (fun r => r.2.1)) with
      | .error e => .error e
      | .ok omegaSmooth =>
        match sv windowSize polyOrder (rows.map (fun r => r.2.2.1)) with
        | .error e => .error e
        | .ok phiSmooth =>
          let kappaU := unwrapDeg (rows.map (fun r => r.2.2.2))
          let sl := polyfit1 angs kappaU
          match fit_sinusoidal_trend cf sp angs omegaSmooth with
          | .error e => .error e
          | .ok omega_trend =>
            match fit_sinusoidal_trend cf sp angs phiSmooth with
            | .error e => .error e
            | .ok phi_trend =>
              .ok (omega_trend, phi_trend, fun x => kappa_trend sl.1 sl.2 x)

/-- Test of step06 line 91: statuses the corrector overwrites. -/
def isCorrectable (it : Item) : Bool :=
  it.calibrationStatus == some "visually calibrated" ||
    it.calibrationStatus == some "estimated"

/-- step06 lines 90-95 for one item: overwrite the three orientation angles
with the trends evaluated at the item's current angular position.  Reading a
missing angular position is modelled as an error (the sinusoidal and linear
trends raise on `None`). -/
def correctItem (omega_trend phi_trend kappa_fn : ℚ → ℚ) (it : Item) :
    Except String Item :=
  if isCorrectable it then
    match it.angularPosition with
    | none => .error "TypeError: angular position missing"
    | some x =>
      .ok { it with omega := omega_trend x, phi := phi_trend x, kappa := kappa_fn x }
  else .ok it

/-- Sequential effectful map: the first raised exception aborts the loop. -/
def mapME (f : Item → Except String Item) : List Item → Except String (List Item)
  | [] => .ok []
  | a :: l =>
    match f a with
    | .error e => .error e
    | .ok b =>
      match mapME f l with
      | .error e => .error e
      | .ok bs => .ok (b :: bs)

/-- step06 lines 86-95 `apply_orientation_correction` on one sequence's
items. -/
def apply_orientation_correction (omega_trend phi_trend kappa_fn : ℚ → ℚ)
    (sequence_items : List Item) : Except String (List Item) :=
  mapME (correctItem omega_trend phi_trend kappa_fn) sequence_items

/-- Sequence key of step06 line 110: the `Sequence` field with default
`Unknown`. -/
def seqOf (it : Item) : String := it.sequence.getD "Unknown"

/-- Distinct sequence ids in first-occurrence order (Python dict insertion
order in the grouping loop of step06 lines 108-113). -/
def firstOccur (seen : List String) : List String → List String
  | [] => []
  | a :: l => if a ∈ seen then firstOccur seen l else a :: firstOccur (a :: seen) l

/-- Originals of one sequence (step06 line 117), read off the step's item
list; the sequence key is never mutated, so grouping commutes with the
in-place per-group mutation and the groups are recovered by filtering. -/
def originalsOf (items : List Item) (sid : String) : List Item :=
  items.filter (fun j => seqOf j == sid && j.calibrationStatus == some "original")

/-- Correction of the group of `sid` inside the step's item list (the Python
call corrects the group list in place; positionally this guards each item by
its sequence key). -/
def correctSeq (t : Trends) (sid : String) (items : List Item) :
    Except String (List Item) :=
  mapME (fun it => if seqOf it == sid then correctItem t.1 t.2.1 t.2.2 it else .ok it)
    items

/-- Processing of one sequence (step06 lines 116-122): skip when it has
fewer than 3 `original` items, else fit the trends on those originals and
correct the group. -/
def stepSeq (fitter : List Item → Except String Trends) (items : List Item)
    (sid : String) : Except String (List Item) :=
  if (originalsOf items sid).length < 3 then .ok items
  else
    match fitter (originalsOf items sid) with
    | .error e => .error e
    | .ok t => correctSeq t sid items

/-- Sequential fold over the sequences of one step; the first exception
aborts the stage. -/
def foldSeqs (fitter : List Item → Except String Trends) :
    List Item → List String → Except String (List Item)
  | items, [] => .ok items
  | items, sid :: rest =>
    match stepSeq fitter items sid with
    | .error e => .error e
    | .ok items2 => foldSeqs fitter items2 rest

/-- step06 lines 104-122 `propagate_orientation` on one step's items,
parameterised by the per-sequence trend fitter (instantiated with
`compute_sinusoidal_offsets` and its external collaborators). -/
def propagate_orientation_step (fitter : List Item → Except String Trends)
    (items : List Item) : Except String (List Item) :=
  foldSeqs fitter items (firstOccur [] (items.map seqOf))

/-- step06 over the whole dataset. -/
def propagate_orientation (fitter : List Item → Except String Trends) :
    List (String × StepInfo) → Except String (List (String × StepInfo))
  | [] => .ok []
  | p :: rest =>
    match propagate_orientation_step fitter p.2.items with
    | .error e => .error e
    | .ok its =>
      match propagate_orientation fitter rest with
      | .error e => .error e
      | .ok rest2 => .ok ((p.1, { p.2 with items := its }) :: rest2)

/-- The two-stage pipeline: gap interpolation then orientation propagation. -/
def pipeline (proj : ℚ → ℚ → ℚ × ℚ × ℚ)
    (fitter : List Item → Except String Trends)
    (data : List (String × StepInfo)) :
    Except String (List (String × StepInfo)) :=
  propagate_orientation fitter (interpolate_positions proj data)

/-- Concrete instantiation of the step06 savgol collaborator for the inputs
evaluated below: with window 3 and order 1 on three values, the filter is
the least-squares line through the three points evaluated at positions 0, 1
and 2 (scipy succeeds on this configuration); other configurations are not
reached by the evaluated inputs. -/
def savgolModel : SavgolFilter := fun w p ys =>
  if w = 3 ∧ p = 2 then .ok (savgol32 ys)
  else if w = 3 ∧ p = 1 then
    match ys with
    | [y0, y1, y2] =>
      .ok [(y0 + y1 + y2) / 3 - (y2 - y0) / 2, (y0 + y1 + y2) / 3,
           (y0 + y1 + y2) / 3 + (y2 - y0) / 2]
    | _ => .error "unmodelled savgol input"
  else .error "unmodelled savgol configuration"

/-- Curve-fit outcome in which the nonlinear fit does not converge, the
event the fallback is written for (scipy raises `RuntimeError` at `maxfev`;
with only 3 samples for 4 parameters scipy in fact raises `TypeError`
immediately, which the caller does not catch either — that variant is
`FitOutcome.fatal`). -/
def cfNoConverge : CurveFit := fun _ _ => .runtimeError

/-- Spline evaluation stub; never reached on the inputs evaluated below. -/
def spStub : SplineEval := fun _ _ _ => 0

/-- Projector instance for concrete evaluations (its values are irrelevant
to the properties checked on them). -/
def projW : ℚ → ℚ → ℚ × ℚ × ℚ := fun th r => (th, r, 0)

/-- Fixture: an item with the given number, status, sequence and angle. -/
def mkItem (num : Int) (st : Option String) (sq : Option String)
    (ang : Option ℚ) : Item :=
  { imageNumber := num, timestamp := none, sequence := sq,
    calibrationStatus := st, angularPosition := ang,
    omega := 0, phi := 0, kappa := 0, posX := none, posY := none, posZ := none }

/-- Failing input for the containment claim: one sequence with exactly three
`original` anchors at distinct angular positions. -/
def c1Items : List Item :=
  [mkItem 1 (some "original") (some "A") (some 0),
   mkItem 2 (some "original") (some "A") (some 10),
   mkItem 3 (some "original") (some "A") (some 20)]

/-- The failing dataset: one step with full geometric context. -/
def c1Data : List (String × StepInfo) :=
  [("S1", { axisCenter := some (0, 0), calculatedRadius := some 10,
            calculatedZ := some 5, items := c1Items })]

/-- Fixture: trend triple with distinguishable constant values. -/
def trivTrends : Trends := (fun _ => 1, fun _ => 2, fun _ => 3)

/-- Fixture: fitter that always returns `trivTrends`. -/
def fitterW : List Item → Except String Trends := fun _ => .ok trivTrends

/-- Fixture for the status-transition claim: anchor, uncalibrated, anchor. -/
def c3wItems : List Item :=
  [mkItem 1 (some "original") (some "A") (some 0),
   mkItem 2 (some "uncalibrated") (some "A") none,
   mkItem 3 (some "original") (some "A") (some 90)]

/-- Fixture refuting the leading-run claim: an uncalibrated item before the
first anchor, then a second uncalibrated item between two anchors. -/
def c2Items : List Item :=
  [mkItem 1 (some "uncalibrated") (some "A") none,
   mkItem 2 (some "original") (some "A") (some 0),
   mkItem 3 (some "uncalibrated") (some "A") none,
   mkItem 4 (some "original") (some "A") (some 90)]

/-- Fixture for the insufficient-anchors claim: sequence `A` has two
originals and an estimated item, sequence `B` has three originals and an
estimated item. -/
def c7Items : List Item :=
  [mkItem 1 (some "original") (some "A") (some 0),
   mkItem 2 (some "original") (some "A") (some 10),
   mkItem 3 (some "estimated") (some "A") (some 5),
   mkItem 4 (some "original") (some "B") (some 0),
   mkItem 5 (some "original") (some "B") (some 10),
   mkItem 6 (some "original") (some "B") (some 20),
   mkItem 7 (some "estimated") (some "B") (some 5)]

/-- Expected output for `c7Items` under `fitterW`: only the estimated item
of sequence `B` is overwritten. -/
def c7Out : List Item :=
  [mkItem 1 (some "original") (some "A") (some 0),
   mkItem 2 (some "original") (some "A") (some 10),
   mkItem 3 (some "estimated") (some "A") (some 5),
   mkItem 4 (some "original") (some "B") (some 0),
   mkItem 5 (some "original") (some "B") (some 10),
   mkItem 6 (some "original") (some "B") (some 20),
   { mkItem 7 (some "estimated") (some "B") (some 5) with
     omega := 1, phi := 2, kappa := 3 }]

/-- Fixture for the corrector frame claim. -/
def c8Items : List Item :=
  [mkItem 1 (some "original") (some "A") (some 0),
   mkItem 2 (some "estimated") (some "A") (some 7)]

/-- The segment closed by the scan on `c2Items`: both anchors, with the
leading uncalibrated item merged into the run. -/
def c2Seg : Seg :=
  ((1, mkItem 2 (some "original") (some "A") (some 0)),
   (3, mkItem 4 (some "original") (some "A") (some 90)),
   [(0, mkItem 1 (some "uncalibrated") (some "A") none),
    (2, mkItem 3 (some "uncalibrated") (some "A") none)])

/-! ### Helper lemmas -/

theorem quadAt_zero (y0 y1 y2 : ℚ) : quadAt y0 y1 y2 0 = y0 := by
  unfold quadAt; ring

theorem quadAt_one (y0 y1 y2 : ℚ) : quadAt y0 y1 y2 1 = y1 := by
  unfold quadAt; ring

theorem quadAt_two (y0 y1 y2 : ℚ) : quadAt y0 y1 y2 2 = y2 := by
  unfold quadAt; ring

theorem savgolTail_id (l : List ℚ) : ∀ a b c : ℚ, savgolTail a b (c :: l) = b :: c :: l := by
  induction l with
  | nil =>
    intro a b c
    show [quadAt a b c 1, quadAt a b c 2] = [b, c]
    rw [quadAt_one, quadAt_two]
  | cons d rest ih =>
    intro a b c
    show quadAt a b c 1 :: savgolTail b c (d :: rest) = b :: c :: d :: rest
    rw [quadAt_one, ih b c d]

theorem savgol32_id (l : List ℚ) : savgol32 l = l := by
  match l with
  | [] => rfl
  | [_] => rfl
  | [_, _] => rfl
  | a :: b :: c :: rest =>
    show quadAt a b c 0 :: savgolTail a b (c :: rest) = a :: b :: c :: rest
    rw [quadAt_zero, savgolTail_id]

theorem smoothThetas_id (ts : List ℚ) : smoothThetas ts = ts := by
  unfold smoothThetas
  split
  · exact savgol32_id ts
  · rfl

theorem pymod_eq_mul_fract (a b : ℚ) (hb : b ≠ 0) :
    pymod a b = b * Int.fract (a / b) := by
  unfold pymod
  rw [Int.fract, mul_sub, mul_div_cancel₀ a hb]

theorem pymod_nonneg (a b : ℚ) (hb : 0 < b) : 0 ≤ pymod a b := by
  rw [pymod_eq_mul_fract a b hb.ne']
  exact mul_nonneg hb.le (Int.fract_nonneg _)

theorem pymod_lt (a b : ℚ) (hb : 0 < b) : pymod a b < b := by
  rw [pymod_eq_mul_fract a b hb.ne']
  calc b * Int.fract (a / b) < b * 1 :=
        (mul_lt_mul_left hb).2 (Int.fract_lt_one _)
    _ = b := mul_one b

theorem interiorPoints_eq (a b : ℚ) (n : ℕ) :
    interiorPoints a b n =
      (List.range n).map (fun i : ℕ => a + (b - a) * ((i : ℚ) + 1) / ((n : ℚ) + 1)) := by
  unfold interiorPoints linspace
  have h1 : List.range (n + 2) = 0 :: (List.range (n + 1)).map (fun i => i + 1) := by
    simpa using List.range_succ_eq_map (n + 1)
  rw [h1]
  rw [List.map_cons, List.drop_one, List.tail_cons, List.map_map]
  rw [List.range_succ, List.map_append]
  simp only [List.map_cons, List.map_nil, Function.comp]
  rw [List.dropLast_concat]
  apply List.map_congr_left
  intro i hi
  rw [List.mem_range] at hi
  simp only [Function.comp_apply]
  push_cast
  ring

theorem lookup_mem {k : ℕ} {v : Item} :
    ∀ l : List (Nat × Item), l.lookup k = some v → (k, v) ∈ l := by
  intro l
  induction l with
  | nil => intro h; simp [List.lookup] at h
  | cons p rest ih =>
    intro h
    rcases p with ⟨a, b⟩
    rcases hbeq : (k == a) with _ | _
    · rw [List.lookup, hbeq] at h
      exact List.mem_cons_of_mem _ (ih h)
    · rw [List.lookup, hbeq] at h
      have hk : k = a := by simpa using hbeq
      have hv : b = v := by simpa using h
      subst hk; subst hv
      exact List.mem_cons_self _ _

theorem applyUpdates_get? (upds : List (Nat × Item)) :
    ∀ (l : List Item) (k j : ℕ),
      (applyUpdates upds k l).get? j =
        (l.get? j).map (fun it => (upds.lookup (k + j)).getD it) := by
  intro l
  induction l with
  | nil => intro k j; simp [applyUpdates]
  | cons a rest ih =>
    intro k j
    cases j with
    | zero => simp [applyUpdates]
    | succ j =>
      show (applyUpdates upds (k + 1) rest).get? j = _
      rw [ih (k + 1) j]
      have : k + 1 + j = k + (j + 1) := by omega
      rw [this]
      rfl

theorem enumItems_get? :
    ∀ (l : List Item) (k : ℕ) (p : Nat × Item), p ∈ enumItems k l →
      k ≤ p.1 ∧ l.get? (p.1 - k) = some p.2 := by
  intro l
  induction l with
  | nil => intro k p h; simp [enumItems] at h
  | cons a rest ih =>
    intro k p h
    rw [enumItems, List.mem_cons] at h
    rcases h with h | h
    · subst h
      simp
    · obtain ⟨hle, hget⟩ := ih (k + 1) p h
      refine ⟨by omega, ?_⟩
      have h1 : p.1 - k = (p.1 - (k + 1)) + 1 := by omega
      rw [h1]
      simpa using hget

theorem unc_not_anchor {it : Item} (h : isUncalibrated it = true) :
    isAnchor it = false := by
  unfold isUncalibrated at h
  unfold isAnchor
  have : it.calibrationStatus = some "uncalibrated" := by simpa using h
  rw [this]
  rfl

theorem scan_run_mem :
    ∀ (l : List (Nat × Item)) (prev : Option (Nat × Item))
      (cur : List (Nat × Item)) (seg : Seg), seg ∈ scanSegments prev cur l →
      ∀ p ∈ seg.2.2, p ∈ cur ∨ (p ∈ l ∧ isUncalibrated p.2 = true) := by
  intro l
  induction l with
  | nil => intro prev cur seg h; simp [scanSegments] at h
  | cons q rest ih =>
    intro prev cur seg h p hp
    by_cases hA : isAnchor q.2 = true
    · rcases prev with _ | q0
      · rcases cur with _ | ⟨c, cs⟩
        · simp only [scanSegments, hA, if_true] at h
          rcases ih _ _ _ h p hp with h1 | h1
          · exact Or.inl h1
          · exact Or.inr ⟨List.mem_cons_of_mem _ h1.1, h1.2⟩
        · simp only [scanSegments, hA, if_true] at h
          rcases ih _ _ _ h p hp with h1 | h1
          · exact Or.inl h1
          · exact Or.inr ⟨List.mem_cons_of_mem _ h1.1, h1.2⟩
      · rcases cur with _ | ⟨c, cs⟩
        · simp only [scanSegments, hA, if_true] at h
          rcases ih _ _ _ h p hp with h1 | h1
          · exact Or.inl h1
          · exact Or.inr ⟨List.mem_cons_of_mem _ h1.1, h1.2⟩
        · simp only [scanSegments, hA, if_true, List.mem_cons] at h
          rcases h with h | h
          · subst h
            exact Or.inl hp
          · rcases ih _ _ _ h p hp with h1 | h1
            · simp at h1
            · exact Or.inr ⟨List.mem_cons_of_mem _ h1.1, h1.2⟩
    · by_cases hU : isUncalibrated q.2 = true
      · simp only [scanSegments, hA, hU, if_false, if_true, Bool.false_eq_true] at h
        rcases ih _ _ _ h p hp with h1 | h1
        · rw [List.mem_append] at h1
          rcases h1 with h1 | h1
          · exact Or.inl h1
          · have : p = q := by simpa using h1
            subst this
            exact Or.inr ⟨List.mem_cons_self _ _, hU⟩
        · exact Or.inr ⟨List.mem_cons_of_mem _ h1.1, h1.2⟩
      · simp only [scanSegments, hA, hU, if_false, Bool.false_eq_true] at h
        rcases ih _ _ _ h p hp with h1 | h1
        · exact Or.inl h1
        · exact Or.inr ⟨List.mem_cons_of_mem _ h1.1, h1.2⟩

theorem segmentUpdates_mem (proj : ℚ → ℚ → ℚ × ℚ × ℚ) (radius z : ℚ)
    (seg : Seg) (k : ℕ) (u : Item)
    (h : (k, u) ∈ segmentUpdates proj radius z seg) :
    ∃ p θ, p ∈ seg.2.2 ∧ k = p.1 ∧ u = estUpdate proj radius z θ p.2 := by
  unfold segmentUpdates at h
  split at h
  · split at h
    · simp at h
    · rw [List.mem_map] at h
      obtain ⟨pq, hpq, heq⟩ := h
      obtain ⟨hk, hu⟩ := Prod.mk.injEq .. ▸ heq
      exact ⟨pq.1, pq.2, (List.of_mem_zip hpq).1, hk.symm, hu.symm⟩
  · simp at h

theorem scan_append_run :
    ∀ (us : List (Nat × Item)) (prev : Option (Nat × Item))
      (cur l : List (Nat × Item)), (∀ p ∈ us, isUncalibrated p.2 = true) →
      scanSegments prev cur (us ++ l) = scanSegments prev (cur ++ us) l := by
  intro us
  induction us with
  | nil => intro prev cur l _; rw [List.nil_append, List.append_nil]
  | cons u us ih =>
    intro prev cur l hu
    have hU : isUncalibrated u.2 = true := hu u (List.mem_cons_self _ _)
    have hA : isAnchor u.2 = false := unc_not_anchor hU
    rw [List.cons_append]
    have hrec := ih prev (cur ++ [u]) l (fun p hp => hu p (List.mem_cons_of_mem _ hp))
    rcases prev with _ | q0 <;> rcases cur with _ | ⟨c, cs⟩ <;>
      simp only [scanSegments, hA, hU, Bool.false_eq_true, if_false, if_true] <;>
      rw [hrec] <;> simp [List.append_assoc]

theorem scan_first_anchor (a : Nat × Item) (cur l : List (Nat × Item))
    (ha : isAnchor a.2 = true) :
    scanSegments none cur (a :: l) = scanSegments (some a) cur l := by
  rcases cur with _ | ⟨c, cs⟩ <;> simp only [scanSegments, ha, if_true]

theorem scan_close (q a : Nat × Item) (c : Nat × Item)
    (cs l : List (Nat × Item)) (ha : isAnchor a.2 = true) :
    scanSegments (some q) (c :: cs) (a :: l) =
      (q, a, c :: cs) :: scanSegments (some a) [] l := by
  simp only [scanSegments, ha, if_true]

theorem interp_upds_mem (proj : ℚ → ℚ → ℚ × ℚ × ℚ) (radius z : ℚ)
    (s : List Item) (k : ℕ) (u : Item)
    (h : (k, u) ∈ (scanSegments none [] (enumItems 0 s)).flatMap
      (segmentUpdates proj radius z)) :
    ∃ x θ, s.get? k = some x ∧ isUncalibrated x = true ∧
      u = estUpdate proj radius z θ x := by
  rw [List.mem_flatMap] at h
  obtain ⟨seg, hseg, hmem⟩ := h
  obtain ⟨p, θ, hrun, hk, hu⟩ := segmentUpdates_mem proj radius z seg k u hmem
  rcases scan_run_mem _ _ _ _ hseg p hrun with h1 | h1
  · simp at h1
  · obtain ⟨hle, hget⟩ := enumItems_get? s 0 p h1.1
    refine ⟨p.2, θ, ?_, h1.2, hu⟩
    rw [hk]
    simpa using hget

theorem interp_step_get? (proj : ℚ → ℚ → ℚ × ℚ × ℚ) (radius z : ℚ)
    (items : List Item) (k : ℕ) :
    (interpolate_positions_step proj radius z items).get? k =
      ((sortItems items).get? k).map
        (fun it =>
          ((((scanSegments none [] (enumItems 0 (sortItems items))).flatMap
            (segmentUpdates proj radius z)).lookup k).getD it)) := by
  unfold interpolate_positions_step
  rw [applyUpdates_get?]
  simp

theorem mapME_ok (f : Item → Except String Item) :
    ∀ (l l' : List Item), mapME f l = .ok l' →
      l'.length = l.length ∧
      ∀ j a, l.get? j = some a → ∃ b, f a = .ok b ∧ l'.get? j = some b := by
  intro l
  induction l with
  | nil =>
    intro l' h
    have : l' = [] := by
      simpa [mapME] using h.symm
    subst this
    exact ⟨rfl, by intro j a ha; simp at ha⟩
  | cons a rest ih =>
    intro l' h
    rw [mapME] at h
    rcases hfa : f a with e | b <;> rw [hfa] at h
    · simp at h
    · rcases hrest : mapME f rest with e | bs <;> rw [hrest] at h
      · simp at h
      · have hl' : l' = b :: bs := by simpa using h.symm
        subst hl'
        obtain ⟨hlen, hpt⟩ := ih bs hrest
        refine ⟨by simpa using hlen, ?_⟩
        intro j x hx
        cases j with
        | zero =>
          obtain rfl : a = x := by simpa using hx
          exact ⟨b, hfa, by simp⟩
        | succ j =>
          obtain ⟨b2, hfb2, hget⟩ := hpt j x (by simpa using hx)
          exact ⟨b2, hfb2, by simpa using hget⟩

theorem correctItem_pos (t1 t2 t3 : ℚ → ℚ) (it : Item) (x : ℚ)
    (hc : isCorrectable it = true) (hx : it.angularPosition = some x) :
    correctItem t1 t2 t3 it =
      .ok { it with omega := t1 x, phi := t2 x, kappa := t3 x } := by
  unfold correctItem
  rw [if_pos hc, hx]

theorem correctItem_status (t1 t2 t3 : ℚ → ℚ) (it b : Item)
    (h : correctItem t1 t2 t3 it = .ok b) :
    b.calibrationStatus = it.calibrationStatus ∧ b.sequence = it.sequence ∧
    (isCorrectable it = false → b = it) := by
  by_cases hc : isCorrectable it = true
  · rcases hap : it.angularPosition with _ | x
    · unfold correctItem at h
      rw [if_pos hc, hap] at h
      simp at h
    · rw [correctItem_pos t1 t2 t3 it x hc hap] at h
      have hb : b = { it with omega := t1 x, phi := t2 x, kappa := t3 x } := by
        simpa using h.symm
      subst hb
      refine ⟨rfl, rfl, ?_⟩
      intro hf
      rw [hc] at hf
      exact Bool.noConfusion hf
  · unfold correctItem at h
    rw [if_neg hc] at h
    have hb : b = it := by simpa using h.symm
    subst hb
    exact ⟨rfl, rfl, fun _ => rfl⟩

theorem original_not_correctable {it : Item}
    (h : it.calibrationStatus = some "original") : isCorrectable it = false := by
  unfold isCorrectable
  rw [h]
  rfl

theorem uncal_not_correctable {it : Item}
    (h : it.calibrationStatus = some "uncalibrated") : isCorrectable it = false := by
  unfold isCorrectable
  rw [h]
  rfl

theorem filter_eq_of_pointwise (p : Item → Bool) :
    ∀ (l l' : List Item), l'.length = l.length →
      (∀ j a, l.get? j = some a →
        ∃ b, l'.get? j = some b ∧ p b = p a ∧ (p a = true → b = a)) →
      l'.filter p = l.filter p := by
  intro l
  induction l with
  | nil =>
    intro l' hlen _
    have : l' = [] := List.length_eq_zero.mp (by simpa using hlen)
    subst this
    rfl
  | cons a as ih =>
    intro l' hlen hpt
    rcases l' with _ | ⟨b0, bs⟩
    · simp at hlen
    · obtain ⟨b, hb, hpb, hba⟩ := hpt 0 a (by simp)
      obtain rfl : b0 = b := by simpa using hb
      have htail : bs.filter p = as.filter p := by
        refine ih bs (by simpa using hlen) ?_
        intro j x hx
        obtain ⟨c, hc, h1, h2⟩ := hpt (j + 1) x (by simpa using hx)
        exact ⟨c, by simpa using hc, h1, h2⟩
      by_cases hpa : p a = true
      · obtain rfl : b0 = a := hba hpa
        simp [List.filter_cons, hpa, htail]
      · have hpa2 : p a = false := by simpa using hpa
        have hpb2 : p b0 = false := by rw [hpb, hpa2]
        simp [List.filter_cons, hpa2, hpb2, htail]

theorem stepSeq_ok_pointwise (fitter : List Item → Except String Trends)
    (items items' : List Item) (sid : String)
    (h : stepSeq fitter items sid = .ok items') :
    items'.length = items.length ∧
    ∀ j st, items.get? j = some st →
      ∃ st', items'.get? j = some st' ∧
        st'.calibrationStatus = st.calibrationStatus ∧
        st'.sequence = st.sequence ∧
        ((seqOf st = sid → isCorrectable st = false) → st' = st) := by
  unfold stepSeq at h
  split at h
  · have : items' = items := by simpa using h.symm
    subst this
    exact ⟨rfl, fun j st hj => ⟨st, hj, rfl, rfl, fun _ => rfl⟩⟩
  · rcases hft : fitter (originalsOf items sid) with e | t <;> rw [hft] at h
    · simp at h
    · simp only [] at h
      unfold correctSeq at h
      obtain ⟨hlen, hpt⟩ := mapME_ok _ _ _ h
      refine ⟨hlen, ?_⟩
      intro j st hj
      obtain ⟨b, hfb, hget⟩ := hpt j st hj
      by_cases hsid : (seqOf st == sid) = true
      · rw [if_pos hsid] at hfb
        obtain ⟨h1, h2, h3⟩ := correctItem_status _ _ _ _ _ hfb
        exact ⟨b, hget, h1, h2, fun hOnly => h3 (hOnly (by simpa using hsid))⟩
      · rw [if_neg hsid] at hfb
        have hbst : b = st := by simpa using hfb.symm
        exact ⟨b, hget, by rw [hbst], by rw [hbst], fun _ => hbst⟩

theorem stepSeq_originalsOf (fitter : List Item → Except String Trends)
    (items items' : List Item) (sid sid2 : String)
    (h : stepSeq fitter items sid = .ok items') :
    originalsOf items' sid2 = originalsOf items sid2 := by
  obtain ⟨hlen, hpt⟩ := stepSeq_ok_pointwise fitter items items' sid h
  unfold originalsOf
  apply filter_eq_of_pointwise _ items items' hlen
  intro j a hj
  obtain ⟨st', hget, hstat, hseq, honly⟩ := hpt j a hj
  have hseqOf : seqOf st' = seqOf a := by
    unfold seqOf
    rw [hseq]
  refine ⟨st', hget, ?_, ?_⟩
  · rw [hseqOf, hstat]
  · intro hpa
    apply honly
    intro _
    have ha : a.calibrationStatus = some "original" := by
      have h2 := hpa
      simp only [Bool.and_eq_true] at h2
      simpa using h2.2
    exact original_not_correctable ha

theorem foldSeqs_ok_pointwise (fitter : List Item → Except String Trends) :
    ∀ (sids : List String) (items out : List Item),
      foldSeqs fitter items sids = .ok out →
      out.length = items.length ∧
      ∀ j st, items.get? j = some st →
        ∃ st', out.get? j = some st' ∧
          st'.calibrationStatus = st.calibrationStatus ∧
          st'.sequence = st.sequence ∧
          ((seqOf st ∉ sids ∨ isCorrectable st = false) → st' = st) := by
  intro sids
  induction sids with
  | nil =>
    intro items out h
    have : out = items := by simpa [foldSeqs] using h.symm
    subst this
    exact ⟨rfl, fun j st hj => ⟨st, hj, rfl, rfl, fun _ => rfl⟩⟩
  | cons sid rest ih =>
    intro items out h
    rw [foldSeqs] at h
    rcases hss : stepSeq fitter items sid with e | items1 <;> rw [hss] at h
    · simp at h
    · simp only [] at h
      obtain ⟨hlen1, hpt1⟩ := stepSeq_ok_pointwise _ _ _ _ hss
      obtain ⟨hlen2, hpt2⟩ := ih items1 out h
      refine ⟨hlen2.trans hlen1, ?_⟩
      intro j st hj
      obtain ⟨st1, hget1, hs1, hq1, ho1⟩ := hpt1 j st hj
      obtain ⟨st2, hget2, hs2, hq2, ho2⟩ := hpt2 j st1 hget1
      refine ⟨st2, hget2, hs2.trans hs1, hq2.trans hq1, ?_⟩
      intro hcond
      rcases hcond with hnm | hcf
      · have h1 : seqOf st ≠ sid := fun he => hnm (by rw [he]; exact List.mem_cons_self _ _)
        have hst1 : st1 = st := ho1 (fun he => absurd he h1)
        rw [hst1] at ho2
        exact ho2 (Or.inl (fun hm => hnm (List.mem_cons_of_mem _ hm)))
      · have hst1 : st1 = st := ho1 (fun _ => hcf)
        rw [hst1] at ho2
        exact ho2 (Or.inr hcf)

theorem foldSeqs_skip (fitter : List Item → Except String Trends) :
    ∀ (sids : List String) (items out : List Item),
      foldSeqs fitter items sids = .ok out →
      ∀ j st, items.get? j = some st →
        (originalsOf items (seqOf st)).length < 3 → out.get? j = some st := by
  intro sids
  induction sids with
  | nil =>
    intro items out h j st hj _
    have : out = items := by simpa [foldSeqs] using h.symm
    subst this
    exact hj
  | cons sid rest ih =>
    intro items out h j st hj hlt
    rw [foldSeqs] at h
    rcases hss : stepSeq fitter items sid with e | items1 <;> rw [hss] at h
    · simp at h
    · simp only [] at h
      by_cases hsid : seqOf st = sid
      · have hitems : items1 = items := by
          unfold stepSeq at hss
          rw [← hsid] at hss
          rw [if_pos hlt] at hss
          simpa using hss.symm
        rw [hitems] at h
        exact ih items out h j st hj hlt
      · obtain ⟨_, hpt1⟩ := stepSeq_ok_pointwise _ _ _ _ hss
        obtain ⟨st1, hget1, _, _, ho1⟩ := hpt1 j st hj
        have hst1 : st1 = st := ho1 (fun he => absurd he hsid)
        subst hst1
        have horig := stepSeq_originalsOf fitter items items1 sid (seqOf st1) hss
        exact ih items1 out h j st1 hget1 (by rw [horig]; exact hlt)

theorem foldSeqs_process (fitter : List Item → Except String Trends) :
    ∀ (sids : List String) (items out : List Item), sids.Nodup →
      foldSeqs fitter items sids = .ok out →
      ∀ j st, items.get? j = some st → seqOf st ∈ sids →
        ¬(originalsOf items (seqOf st)).length < 3 →
        ∀ t, fitter (originalsOf items (seqOf st)) = .ok t →
          isCorrectable st = true → ∀ x, st.angularPosition = some x →
            out.get? j =
              some { st with omega := t.1 x, phi := t.2.1 x, kappa := t.2.2 x } := by
  intro sids
  induction sids with
  | nil =>
    intro items out _ _ j st _ hm
    simp at hm
  | cons sid rest ih =>
    intro items out hnd h j st hj hm hge t hft hcor x hx
    rw [foldSeqs] at h
    rcases hss : stepSeq fitter items sid with e | items1 <;> rw [hss] at h
    · simp at h
    · simp only [] at h
      by_cases hsid : seqOf st = sid
      · have hcorr : items1.get? j =
            some { st with omega := t.1 x, phi := t.2.1 x, kappa := t.2.2 x } := by
          unfold stepSeq at hss
          rw [← hsid, if_neg hge, hft] at hss
          simp only [] at hss
          unfold correctSeq at hss
          obtain ⟨_, hpt⟩ := mapME_ok _ _ _ hss
          obtain ⟨b, hfb, hget⟩ := hpt j st hj
          rw [if_pos (by simp), correctItem_pos _ _ _ _ x hcor hx] at hfb
          have hb : b = { st with omega := t.1 x, phi := t.2.1 x, kappa := t.2.2 x } := by
            simpa using hfb.symm
          rw [hb] at hget
          exact hget
        have hnotin : seqOf st ∉ rest := by
          rw [hsid]
          exact (List.nodup_cons.mp hnd).1
        obtain ⟨_, hpt2⟩ := foldSeqs_ok_pointwise fitter rest items1 out h
        obtain ⟨st2, hget2, _, _, ho2⟩ := hpt2 j _ hcorr
        have hst2 : st2 = { st with omega := t.1 x, phi := t.2.1 x, kappa := t.2.2 x } := by
          apply ho2
          exact Or.inl (by
            show seqOf { st with omega := t.1 x, phi := t.2.1 x, kappa := t.2.2 x } ∉ rest
            unfold seqOf
            exact hnotin)
        rw [hst2] at hget2
        exact hget2
      · obtain ⟨_, hpt1⟩ := stepSeq_ok_pointwise _ _ _ _ hss
        obtain ⟨st1, hget1, _, _, ho1⟩ := hpt1 j st hj
        have hst1 : st1 = st := ho1 (fun he => absurd he hsid)
        subst hst1
        have horig := stepSeq_originalsOf fitter items items1 sid (seqOf st1) hss
        have hmem : seqOf st1 ∈ rest := by
          rcases List.mem_cons.mp hm with h1 | h1
          · exact absurd h1 hsid
          · exact h1
        exact ih items1 out (List.nodup_cons.mp hnd).2 h j st1 hget1 hmem
          (by rw [horig]; exact hge) t (by rw [horig]; exact hft) hcor x hx

theorem firstOccur_not_seen :
    ∀ (l seen : List String) (x : String), x ∈ firstOccur seen l → x ∉ seen := by
  intro l
  induction l with
  | nil => intro seen x h; simp [firstOccur] at h
  | cons a as ih =>
    intro seen x h
    rw [firstOccur] at h
    by_cases ha : a ∈ seen
    · rw [if_pos ha] at h
      exact ih seen x h
    · rw [if_neg ha] at h
      rcases List.mem_cons.mp h with rfl | h1
      · exact ha
      · intro hx
        exact (ih _ x h1) (List.mem_cons_of_mem _ hx)

theorem firstOccur_nodup : ∀ (l seen : List String), (firstOccur seen l).Nodup := by
  intro l
  induction l with
  | nil => intro seen; simp [firstOccur]
  | cons a as ih =>
    intro seen
    rw [firstOccur]
    by_cases ha : a ∈ seen
    · rw [if_pos ha]
      exact ih seen
    · rw [if_neg ha]
      rw [List.nodup_cons]
      refine ⟨fun hmem => ?_, ih (a :: seen)⟩
      exact (firstOccur_not_seen as (a :: seen) a hmem) (List.mem_cons_self _ _)

theorem mem_firstOccur :
    ∀ (l seen : List String) (x : String), x ∈ l → x ∉ seen →
      x ∈ firstOccur seen l := by
  intro l
  induction l with
  | nil => intro seen x h; simp at h
  | cons a as ih =>
    intro seen x hx hns
    rw [firstOccur]
    by_cases ha : a ∈ seen
    · rw [if_pos ha]
      rcases List.mem_cons.mp hx with rfl | h1
      · exact absurd ha hns
      · exact ih seen x h1 hns
    · rw [if_neg ha]
      rcases List.mem_cons.mp hx with rfl | h1
      · exact List.mem_cons_self _ _
      · by_cases hxa : x = a
        · subst hxa
          exact List.mem_cons_self _ _
        · refine List.mem_cons_of_mem _ (ih (a :: seen) x h1 ?_)
          intro hmem
          rcases List.mem_cons.mp hmem with h2 | h2
          · exact hxa h2
          · exact hns h2

theorem mem_of_get? {l : List Item} {j : ℕ} {a : Item} (h : l.get? j = some a) :
    a ∈ l := by
  induction l generalizing j with
  | nil => simp at h
  | cons b bs ih =>
    cases j with
    | zero =>
      have : b = a := by simpa using h
      rw [← this]
      exact List.mem_cons_self _ _
    | succ j =>
      exact List.mem_cons_of_mem _ (ih (by simpa using h))

theorem qabs_eq_abs (x : ℚ) : qabs x = |x| := by
  unfold qabs
  split
  · exact (abs_of_neg (by assumption)).symm
  · exact (abs_of_nonneg (not_lt.mp (by assumption))).symm

/-- C10: whenever the Omega/Phi fitting operation is given fewer than 3
(angle, value) sample points, it attempts no sinusoidal or spline fit (the
result is the same for every curve-fit and spline collaborator) and returns
the constant function mapping every angle to the mean of the given values. -/
theorem c10_few_samples_mean (cf : CurveFit) (sp : SplineEval)
    (angular_positions values : List ℚ) (h : angular_positions.length < 3) :
    fit_sinusoidal_trend cf sp angular_positions values =
      .ok (fun _ => qmean values) := by
  unfold fit_sinusoidal_trend
  rw [if_pos h]

theorem c10_few_samples_mean_witness :
    ([(1:ℚ), 2].length < 3) ∧
    fit_sinusoidal_trend cfNoConverge spStub [1, 2] [4, 6] =
      .ok (fun _ => qmean [4, 6]) :=
  ⟨by decide, c10_few_samples_mean cfNoConverge spStub [1, 2] [4, 6] (by decide)⟩

/-- C6: for every fitted slope and intercept and every angle `x`, the kappa
trend returns `((slope * x + intercept + 180) mod 360) - 180`, and the value
always lies in `[-180, 180)`. -/
theorem c6_kappa_wrap (slope intercept x : ℚ) :
    kappa_trend slope intercept x =
      pymod (slope * x + intercept + 180) 360 - 180 ∧
    -180 ≤ kappa_trend slope intercept x ∧ kappa_trend slope intercept x < 180 := by
  refine ⟨rfl, ?_, ?_⟩
  · unfold kappa_trend
    have := pymod_nonneg (slope * x + intercept + 180) 360 (by norm_num)
    linarith
  · unfold kappa_trend
    have := pymod_lt (slope * x + intercept + 180) 360 (by norm_num)
    linarith

/-- C5: for a closed segment whose endpoint angles are both present with
`0.01 ≤ |θ0 - θ1| < 1`, the angle sequence is the constant run `θ0` (also
after smoothing, which fixes a constant sequence), and every produced update
carries angle `θ0`, status `estimated`, `X`/`Y` from the projector at `θ0`
and `Z` from the step. -/
theorem c5_degenerate_band (proj : ℚ → ℚ → ℚ × ℚ × ℚ) (radius z : ℚ)
    (a1 a2 : Nat × Item) (run : List (Nat × Item)) (th0 th1 : ℚ)
    (h0 : a1.2.angularPosition = some th0) (h1 : a2.2.angularPosition = some th1)
    (hlo : 1 / 100 ≤ |th0 - th1|) (hhi : |th0 - th1| < 1) :
    smoothThetas (segmentThetasPre th0 th1 run.length) =
      List.replicate run.length th0 ∧
    ∀ p ∈ segmentUpdates proj radius z (a1, a2, run),
      p.2.angularPosition = some th0 ∧ p.2.calibrationStatus = some "estimated" ∧
      p.2.posX = some (proj th0 radius).1 ∧ p.2.posY = some (proj th0 radius).2.1 ∧
      p.2.posZ = some z := by
  have hpre : segmentThetasPre th0 th1 run.length = List.replicate run.length th0 := by
    unfold segmentThetasPre
    rw [if_pos (by rw [qabs_eq_abs]; exact hhi)]
  constructor
  · rw [smoothThetas_id, hpre]
  · intro p hp
    unfold segmentUpdates at hp
    simp only [] at hp
    rw [h0, h1] at hp
    simp only [] at hp
    rw [if_neg (by rw [qabs_eq_abs]; exact not_lt.mpr hlo)] at hp
    rw [smoothThetas_id, hpre] at hp
    rw [List.mem_map] at hp
    obtain ⟨pq, hpq, rfl⟩ := hp
    have hθ : pq.2 = th0 := List.eq_of_mem_replicate (List.of_mem_zip hpq).2
    simp [estUpdate, hθ]

theorem c5_degenerate_band_witness :
    ((1:ℚ) / 100 ≤ |(10:ℚ) - 21 / 2|) ∧ (|(10:ℚ) - 21 / 2| < 1) ∧
    smoothThetas (segmentThetasPre 10 (21 / 2)
        [(1, mkItem 2 (some "uncalibrated") none none)].length) =
      List.replicate [(1, mkItem 2 (some "uncalibrated") none none)].length 10 := by
  have habs : |(10:ℚ) - 21 / 2| = 1 / 2 := by
    rw [abs_sub_comm, abs_of_pos (by norm_num : (0:ℚ) < 21 / 2 - 10)]
    norm_num
  refine ⟨by rw [habs]; norm_num, by rw [habs]; norm_num, ?_⟩
  exact (c5_degenerate_band projW 10 5 (0, mkItem 1 (some "original") none (some 10))
    (3, mkItem 4 (some "original") none (some (21 / 2)))
    [(1, mkItem 2 (some "uncalibrated") none none)] 10 (21 / 2)
    rfl rfl (by rw [habs]; norm_num) (by rw [habs]; norm_num)).1

theorem segmentUpdates_eq_nosmooth (proj : ℚ → ℚ → ℚ × ℚ × ℚ) (radius z : ℚ)
    (seg : Seg) :
    segmentUpdates proj radius z seg = segmentUpdatesNS proj radius z seg := by
  unfold segmentUpdates segmentUpdatesNS
  simp only [smoothThetas_id]

/-- C9: the Savitzky-Golay pass of the interpolator (window `min(n,3) = 3`,
order 2) maps the uniformly spaced interior angles to themselves — with
window 3 and order 2 the filter is the identity in exact arithmetic — so the
interpolator with its smoothing step equals the interpolator without it. -/
theorem c9_smoothing_identity (th0 th1 : ℚ) (n : ℕ) (h1 : 1 ≤ |th0 - th1|)
    (h2 : 3 ≤ n) :
    savgol32 (segmentThetasPre th0 th1 n) = segmentThetasPre th0 th1 n ∧
    ∀ (proj : ℚ → ℚ → ℚ × ℚ × ℚ) (radius z : ℚ) (items : List Item),
      interpolate_positions_step proj radius z items =
        interpolate_positions_step_nosmooth proj radius z items := by
  refine ⟨savgol32_id _, ?_⟩
  intro proj radius z items
  unfold interpolate_positions_step interpolate_positions_step_nosmooth
  rw [funext (segmentUpdates_eq_nosmooth proj radius z)]

theorem c9_smoothing_identity_witness :
    ((1:ℚ) ≤ |(10:ℚ) - 50|) ∧ (3 ≤ 3) ∧
    savgol32 (segmentThetasPre 10 50 3) = segmentThetasPre 10 50 3 ∧
    interpolate_positions_step projW 10 5 c2Items =
      interpolate_positions_step_nosmooth projW 10 5 c2Items :=
  ⟨by norm_num, by decide,
    (c9_smoothing_identity 10 50 3 (by norm_num) (by decide)).1,
    (c9_smoothing_identity 10 50 3 (by norm_num) (by decide)).2 projW 10 5 c2Items⟩

/-- C4: for a closed segment in the non-degenerate branch `|θ0 - θ1| ≥ 1`
with run length `n`, the pre-smoothing angles are exactly the `n` interior
points of the uniform partition of `[θ0, θ1]` into `n + 1` subintervals
(endpoints excluded), strictly monotone in the direction of `θ1 - θ0` and
all strictly between `θ0` and `θ1`. -/
theorem c4_interior_partition (th0 th1 : ℚ) (n : ℕ) (h : 1 ≤ |th0 - th1|) :
    segmentThetasPre th0 th1 n = interiorPoints th0 th1 n ∧
    (segmentThetasPre th0 th1 n).length = n ∧
    (∀ i : ℕ, i < n → (segmentThetasPre th0 th1 n).get? i =
        some (th0 + (th1 - th0) * ((i : ℚ) + 1) / ((n : ℚ) + 1))) ∧
    (th0 < th1 → List.Chain' (· < ·) (segmentThetasPre th0 th1 n)) ∧
    (th1 < th0 → List.Chain' (· > ·) (segmentThetasPre th0 th1 n)) ∧
    (∀ θ ∈ segmentThetasPre th0 th1 n, min th0 th1 < θ ∧ θ < max th0 th1) := by
  have h0 : segmentThetasPre th0 th1 n = interiorPoints th0 th1 n := by
    unfold segmentThetasPre
    rw [if_neg (by rw [qabs_eq_abs]; exact not_lt.mpr h)]
  have hmap : segmentThetasPre th0 th1 n =
      (List.range n).map
        (fun i : ℕ => th0 + (th1 - th0) * ((i : ℚ) + 1) / ((n : ℚ) + 1)) := by
    rw [h0, interiorPoints_eq]
  have hn : (0:ℚ) < (n:ℚ) + 1 := by positivity
  refine ⟨h0, by rw [hmap]; simp, ?_, ?_, ?_, ?_⟩
  · intro i hi
    rw [hmap, List.get?_eq_getElem?]
    simp [List.getElem?_map, List.getElem?_range, hi]
  · intro hlt
    have hΔ : 0 < th1 - th0 := by linarith
    rw [hmap, List.chain'_iff_get]
    intro i hi
    simp only [List.get_eq_getElem, List.getElem_map, List.getElem_range]
    apply add_lt_add_left
    rw [div_lt_div_iff₀ hn hn]
    push_cast
    nlinarith [mul_pos hΔ hn]
  · intro hlt
    have hΔ : 0 < th0 - th1 := by linarith
    rw [hmap, List.chain'_iff_get]
    intro i hi
    simp only [List.get_eq_getElem, List.getElem_map, List.getElem_range]
    rw [gt_iff_lt]
    apply add_lt_add_left
    rw [div_lt_div_iff₀ hn hn]
    push_cast
    nlinarith [mul_pos hΔ hn]
  · intro θ hθ
    rw [hmap, List.mem_map] at hθ
    obtain ⟨i, hi, rfl⟩ := hθ
    rw [List.mem_range] at hi
    have hin : ((i:ℚ) + 1) < (n:ℚ) + 1 := by exact_mod_cast Nat.succ_lt_succ hi
    have hipos : (0:ℚ) < (i:ℚ) + 1 := by positivity
    have hne : th0 ≠ th1 := by
      intro he
      rw [he, sub_self, abs_zero] at h
      linarith
    rcases hne.lt_or_lt with hlt | hgt
    · rw [min_eq_left hlt.le, max_eq_right hlt.le]
      have hΔ : 0 < th1 - th0 := by linarith
      have hpos : 0 < (th1 - th0) * ((i:ℚ) + 1) / ((n:ℚ) + 1) := by positivity
      have hlt2 : (th1 - th0) * ((i:ℚ) + 1) / ((n:ℚ) + 1) < th1 - th0 := by
        rw [div_lt_iff₀ hn]
        calc (th1 - th0) * ((i:ℚ) + 1) < (th1 - th0) * ((n:ℚ) + 1) :=
              mul_lt_mul_of_pos_left hin hΔ
          _ = (th1 - th0) * ((n:ℚ) + 1) := rfl
      exact ⟨by linarith, by linarith⟩
    · rw [min_eq_right hgt.le, max_eq_left hgt.le]
      have hΔ : 0 < th0 - th1 := by linarith
      have hpos : 0 < (th0 - th1) * ((i:ℚ) + 1) / ((n:ℚ) + 1) := by positivity
      have hlt2 : (th0 - th1) * ((i:ℚ) + 1) / ((n:ℚ) + 1) < th0 - th1 := by
        rw [div_lt_iff₀ hn]
        exact mul_lt_mul_of_pos_left hin hΔ
      have heq : (th1 - th0) * ((i:ℚ) + 1) / ((n:ℚ) + 1) =
          -((th0 - th1) * ((i:ℚ) + 1) / ((n:ℚ) + 1)) := by ring
      constructor
      · rw [heq]
        linarith
      · rw [heq]
        linarith

theorem c4_interior_partition_witness :
    ((1:ℚ) ≤ |(10:ℚ) - 50|) ∧
    segmentThetasPre 10 50 3 = interiorPoints 10 50 3 ∧
    (segmentThetasPre 10 50 3).length = 3 ∧
    List.Chain' (· < ·) (segmentThetasPre 10 50 3) :=
  ⟨by norm_num,
   (c4_interior_partition 10 50 3 (by norm_num)).1,
   (c4_interior_partition 10 50 3 (by norm_num)).2.1,
   (c4_interior_partition 10 50 3 (by norm_num)).2.2.2.1 (by norm_num)⟩

/-- C3: across both stages the only status transition is
`uncalibrated → estimated`.  In the sorted step, an item that enters gap
interpolation as `original` or `visually calibrated` leaves it entirely
unchanged; any item whose status changed was `uncalibrated` and is now
`estimated`; and orientation propagation changes no item's status at all. -/
theorem c3_status_transitions (proj : ℚ → ℚ → ℚ × ℚ × ℚ) (radius z : ℚ)
    (items : List Item) (fitter : List Item → Except String Trends)
    (out2 : List Item) (k : ℕ) :
    (∀ st, (sortItems items).get? k = some st →
        (st.calibrationStatus = some "original" ∨
          st.calibrationStatus = some "visually calibrated") →
        (interpolate_positions_step proj radius z items).get? k = some st) ∧
    (∀ st o, (sortItems items).get? k = some st →
        (interpolate_positions_step proj radius z items).get? k = some o →
        o.calibrationStatus ≠ st.calibrationStatus →
        st.calibrationStatus = some "uncalibrated" ∧
        o.calibrationStatus = some "estimated") ∧
    (propagate_orientation_step fitter items = .ok out2 →
      ∀ st o, items.get? k = some st → out2.get? k = some o →
        o.calibrationStatus = st.calibrationStatus) := by
  refine ⟨?_, ?_, ?_⟩
  · intro st hst hanc
    rw [interp_step_get?, hst]
    rcases hlk : ((scanSegments none [] (enumItems 0 (sortItems items))).flatMap
        (segmentUpdates proj radius z)).lookup k with _ | u
    · simp
    · exfalso
      obtain ⟨x, θ, hx, hunc, _⟩ :=
        interp_upds_mem proj radius z (sortItems items) k u (lookup_mem _ hlk)
      rw [hst] at hx
      have hxx : x = st := by simpa using hx.symm
      subst hxx
      have hxs : x.calibrationStatus = some "uncalibrated" := by
        unfold isUncalibrated at hunc
        simpa using hunc
      rcases hanc with h1 | h1 <;> rw [h1] at hxs <;> simp at hxs
  · intro st o hst ho hne
    rw [interp_step_get?, hst] at ho
    rcases hlk : ((scanSegments none [] (enumItems 0 (sortItems items))).flatMap
        (segmentUpdates proj radius z)).lookup k with _ | u
    · rw [hlk] at ho
      have : st = o := by simpa using ho
      rw [this] at hne
      exact absurd rfl hne
    · rw [hlk] at ho
      have hou : u = o := by simpa using ho
      obtain ⟨x, θ, hx, hunc, hu⟩ :=
        interp_upds_mem proj radius z (sortItems items) k u (lookup_mem _ hlk)
      rw [hst] at hx
      have hxx : x = st := by simpa using hx.symm
      subst hxx
      constructor
      · unfold isUncalibrated at hunc
        simpa using hunc
      · rw [← hou, hu]
        rfl
  · intro hps st o hst ho
    unfold propagate_orientation_step at hps
    obtain ⟨_, hpt⟩ := foldSeqs_ok_pointwise fitter _ items out2 hps
    obtain ⟨st', hget, hstat, _, _⟩ := hpt k st hst
    rw [hget] at ho
    have : st' = o := by simpa using ho
    rw [← this, hstat]

theorem c3_status_transitions_witness :
    (interpolate_positions_step projW 10 5 c3wItems).get? 0 =
      some (mkItem 1 (some "original") (some "A") (some 0)) ∧
    propagate_orientation_step fitterW c3wItems = .ok c3wItems :=
  ⟨(c3_status_transitions projW 10 5 c3wItems fitterW c3wItems 0).1
      (mkItem 1 (some "original") (some "A") (some 0)) (by decide) (Or.inl rfl),
   rfl⟩

/-- C7: in orientation propagation, a sequence with fewer than 3 `original`
items is skipped: each of its items is returned entirely unchanged, Omega,
Phi and Kappa included; a sequence with at least 3 originals whose fit
succeeds is still processed, its correctable items being overwritten with
the fitted trends at their angular positions. -/
theorem c7_insufficient_anchors (fitter : List Item → Except String Trends)
    (items out : List Item) (k : ℕ) (st : Item)
    (h : propagate_orientation_step fitter items = .ok out)
    (hk : items.get? k = some st) :
    ((originalsOf items (seqOf st)).length < 3 → out.get? k = some st) ∧
    (¬(originalsOf items (seqOf st)).length < 3 →
      ∀ t, fitter (originalsOf items (seqOf st)) = .ok t →
        isCorrectable st = true → ∀ x, st.angularPosition = some x →
          out.get? k =
            some { st with omega := t.1 x, phi := t.2.1 x, kappa := t.2.2 x }) := by
  unfold propagate_orientation_step at h
  constructor
  · intro hlt
    exact foldSeqs_skip fitter _ items out h k st hk hlt
  · intro hge t hft hcor x hx
    refine foldSeqs_process fitter _ items out (firstOccur_nodup _ _) h k st hk
      ?_ hge t hft hcor x hx
    exact mem_firstOccur _ [] _ (List.mem_map_of_mem seqOf (mem_of_get? hk))
      (by simp)

theorem c7_insufficient_anchors_witness :
    propagate_orientation_step fitterW c7Items = .ok c7Out ∧
    c7Out.get? 2 = some (mkItem 3 (some "estimated") (some "A") (some 5)) ∧
    c7Out.get? 6 = some { mkItem 7 (some "estimated") (some "B") (some 5) with
                          omega := 1, phi := 2, kappa := 3 } :=
  ⟨rfl,
   (c7_insufficient_anchors fitterW c7Items c7Out 2
      (mkItem 3 (some "estimated") (some "A") (some 5)) rfl (by decide)).1
     (by decide),
   (c7_insufficient_anchors fitterW c7Items c7Out 6
      (mkItem 7 (some "estimated") (some "B") (some 5)) rfl (by decide)).2
     (by decide) trivTrends rfl rfl 5 rfl⟩

/-- C8: the orientation corrector overwrites exactly Omega, Phi and Kappa
(with the three trends at the item's current angular position) on the items
whose status is `visually calibrated` or `estimated`, and returns every
other item with no field mutated. -/
theorem c8_corrector_frame (omega_trend phi_trend kappa_fn : ℚ → ℚ)
    (items out : List Item) (k : ℕ) (st : Item)
    (h : apply_orientation_correction omega_trend phi_trend kappa_fn items = .ok out)
    (hk : items.get? k = some st) :
    ((st.calibrationStatus = some "visually calibrated" ∨
        st.calibrationStatus = some "estimated") →
      ∃ x, st.angularPosition = some x ∧
        out.get? k = some { st with omega := omega_trend x, phi := phi_trend x,
                                    kappa := kappa_fn x }) ∧
    ((st.calibrationStatus ≠ some "visually calibrated" ∧
        st.calibrationStatus ≠ some "estimated") →
      out.get? k = some st) := by
  unfold apply_orientation_correction at h
  obtain ⟨_, hpt⟩ := mapME_ok _ _ _ h
  obtain ⟨b, hfb, hget⟩ := hpt k st hk
  constructor
  · intro hcor
    have hc : isCorrectable st = true := by
      unfold isCorrectable
      rcases hcor with h1 | h1 <;> rw [h1] <;> rfl
    rcases hap : st.angularPosition with _ | x
    · exfalso
      unfold correctItem at hfb
      rw [if_pos hc, hap] at hfb
      simp at hfb
    · refine ⟨x, rfl, ?_⟩
      rw [correctItem_pos _ _ _ _ x hc hap] at hfb
      have hb : b = { st with omega := omega_trend x, phi := phi_trend x,
                              kappa := kappa_fn x } := by
        simpa using hfb.symm
      rw [hb, hap] at hget
      exact hget
  · intro hnc
    have hc : ¬ isCorrectable st = true := by
      intro hc
      unfold isCorrectable at hc
      simp only [Bool.or_eq_true, beq_iff_eq] at hc
      rcases hc with h1 | h1
      · exact hnc.1 h1
      · exact hnc.2 h1
    unfold correctItem at hfb
    rw [if_neg hc] at hfb
    have hb : b = st := by simpa using hfb.symm
    rw [hb] at hget
    exact hget

theorem c8_corrector_frame_witness :
    apply_orientation_correction (fun _ => 8) (fun _ => 14) (fun _ => 4) c8Items =
      .ok [mkItem 1 (some "original") (some "A") (some 0),
           { mkItem 2 (some "estimated") (some "A") (some 7) with
             omega := 8, phi := 14, kappa := 4 }] ∧
    ([mkItem 1 (some "original") (some "A") (some 0),
      { mkItem 2 (some "estimated") (some "A") (some 7) with
        omega := 8, phi := 14, kappa := 4 }].get? 0 =
      some (mkItem 1 (some "original") (some "A") (some 0))) := by
  refine ⟨rfl, ?_⟩
  exact (c8_corrector_frame (fun _ => 8) (fun _ => 14) (fun _ => 4) c8Items
    [mkItem 1 (some "original") (some "A") (some 0),
     { mkItem 2 (some "estimated") (some "A") (some 7) with
       omega := 8, phi := 14, kappa := 4 }] 0
    (mkItem 1 (some "original") (some "A") (some 0)) rfl rfl).2
    (by constructor <;> intro hx <;> simp [mkItem] at hx)

/-- C2 (amended): in the forward scan an uncalibrated item is appended to
the accumulating run unconditionally, whether or not an anchor has been
seen; a run of uncalibrated items preceding the first anchor is therefore
retained and merged, together with the run after that anchor, into the
segment closed at the second anchor — so those leading items do receive
angles and the `estimated` status when that segment interpolates.  Only runs
never followed by a closing anchor are dropped. -/
theorem c2_unconditional_append (us vs : List (Nat × Item)) (a1 a2 : Nat × Item)
    (rest : List (Nat × Item))
    (hus : ∀ p ∈ us, isUncalibrated p.2 = true)
    (hvs : ∀ p ∈ vs, isUncalibrated p.2 = true)
    (ha1 : isAnchor a1.2 = true) (ha2 : isAnchor a2.2 = true)
    (hne : us ++ vs ≠ []) :
    scanSegments none [] (us ++ a1 :: (vs ++ a2 :: rest)) =
      (a1, a2, us ++ vs) :: scanSegments (some a2) [] rest := by
  rw [scan_append_run us none [] _ hus, List.nil_append]
  rw [scan_first_anchor a1 us _ ha1]
  rw [scan_append_run vs (some a1) us _ hvs]
  rcases hsh : us ++ vs with _ | ⟨c, cs⟩
  · exact absurd hsh hne
  · exact scan_close a1 a2 c cs rest ha2

theorem c2_unconditional_append_witness :
    scanSegments none []
        ([(0, mkItem 1 (some "uncalibrated") (some "A") none)] ++
          (1, mkItem 2 (some "original") (some "A") (some 0)) ::
            ([(2, mkItem 3 (some "uncalibrated") (some "A") none)] ++
              (3, mkItem 4 (some "original") (some "A") (some 90)) :: [])) =
      ((1, mkItem 2 (some "original") (some "A") (some 0)),
       (3, mkItem 4 (some "original") (some "A") (some 90)),
       [(0, mkItem 1 (some "uncalibrated") (some "A") none)] ++
         [(2, mkItem 3 (some "uncalibrated") (some "A") none)]) ::
        scanSegments (some (3, mkItem 4 (some "original") (some "A") (some 90))) [] [] :=
  c2_unconditional_append
    [(0, mkItem 1 (some "uncalibrated") (some "A") none)]
    [(2, mkItem 3 (some "uncalibrated") (some "A") none)]
    (1, mkItem 2 (some "original") (some "A") (some 0))
    (3, mkItem 4 (some "original") (some "A") (some 90)) []
    (by decide) (by decide) (by decide) (by decide) (by decide)

/-- C2 (counterexample): on a step whose sorted items are an uncalibrated
item, an anchor at angle 0, an uncalibrated item, and an anchor at angle 90,
the leading uncalibrated item — which precedes every anchor — is assigned
the interior angle 30 and the `estimated` status by the closed segment,
refuting the claim that such items are dropped and never assigned an angle
or the estimated status. -/
theorem c2_leading_run_counterexample :
    (interpolate_positions_step projW 10 5 c2Items).get? 0 =
      some { mkItem 1 (some "uncalibrated") (some "A") none with
             angularPosition := some 30, posX := some 30, posY := some 10,
             posZ := some 5, calibrationStatus := some "estimated" } := by
  have hsort : sortItems c2Items = c2Items := by decide
  have hscan : scanSegments none [] (enumItems 0 c2Items) = [c2Seg] := by decide
  have hint : interiorPoints 0 90 2 = [30, 60] := by
    rw [interiorPoints_eq]
    norm_num [List.range_succ]
  have hpre : segmentThetasPre 0 90 2 = [30, 60] := by
    unfold segmentThetasPre qabs
    rw [if_neg (by norm_num), hint]
  have hupd : segmentUpdates projW 10 5 c2Seg =
      [(0, { mkItem 1 (some "uncalibrated") (some "A") none with
             angularPosition := some 30, posX := some 30, posY := some 10,
             posZ := some 5, calibrationStatus := some "estimated" }),
       (2, { mkItem 3 (some "uncalibrated") (some "A") none with
             angularPosition := some 60, posX := some 60, posY := some 10,
             posZ := some 5, calibrationStatus := some "estimated" })] := by
    unfold segmentUpdates
    simp only [c2Seg, mkItem]
    rw [if_neg (by norm_num [qabs])]
    simp only [List.length_cons, List.length_nil]
    rw [smoothThetas_id, hpre]
    simp [estUpdate, projW, mkItem]
  rw [interp_step_get?, hsort, hscan]
  have hflat : ([c2Seg].flatMap (segmentUpdates projW 10 5)) =
      segmentUpdates projW 10 5 c2Seg ++ [] := by
    simp [List.flatMap]
  rw [hflat, hupd]
  rfl

/-- C1 (code bug): the pipeline does not always run to completion.  On a
dataset whose single step holds one sequence with exactly three `original`
anchors at distinct angular positions, gap interpolation succeeds, but when
the sinusoidal fit does not converge — the very event the spline fallback is
written for — the fallback `UnivariateSpline(k=3)` requires more than 3
points and raises; only `RuntimeError` from `curve_fit` is caught, so the
exception escapes `propagate_orientation` and the run aborts instead of
producing output. -/
theorem c1_uncontained_exception :
    pipeline projW (compute_sinusoidal_offsets cfNoConverge savgolModel spStub)
        c1Data =
      .error "ValueError: UnivariateSpline with k=3 needs more than 3 points" :=
  rfl
